import Mathlib

/-
Verification of `py/kubeflow/kubeflow/ci/update_jupyter_web_app.py`.

The script is a single linear automation pass: it validates the remote
fork URL, checks whether a registry image tagged with the last source
commit exists (building it if the registry reports 404), patches the
`image` parameter in a ksonnet prototype file, and — when the file
actually changed — checks out a branch, checks for a duplicate open PR,
and commits / force-pushes / opens a PR.

Shallow embedding conventions:
  * Python strings are modelled as `List Char` (`Line`); Python's
    `re.findall(r'\S+', line)` tokenizer is modelled character by
    character by `tokens`.
  * Python dicts keyed by strings are modelled as association lists
    with insert-or-overwrite (`dictInsert`) and lookup (`dictGet?`).
  * The external world (config-file contents, the registry's answer,
    the build tool's output document, the open-PR listing, the git
    repository state) is a record `Env` of oracle answers.
  * Side effects (file writes, git commands, registry and PR-host
    calls) are recorded as an explicit `Effect` trace; exceptions are
    an `Except RunError` result.
-/

/-- A Python string: a list of characters. -/
abbrev Line := List Char

/-- Worker for `tokens`: scans characters, accumulating the current
non-whitespace run in `cur`, mirroring `re.findall` of one-or-more
non-whitespace characters. -/
def tokensAux : List Char → Line → List Line
  | [], cur => if cur = [] then [] else [cur]
  | c :: cs, cur =>
    if c.isWhitespace then
      if cur = [] then tokensAux cs [] else cur :: tokensAux cs []
    else
      tokensAux cs (cur ++ [c])

/-- Model of the findall of one-or-more non-whitespace characters: the
maximal whitespace-free runs of a line. -/
def tokens (l : Line) : List Line := tokensAux l []

/-- Model of the single-space join of the token pieces. -/
def joinPieces : List Line → Line
  | [] => []
  | [p] => p
  | p :: ps => p ++ ' ' :: joinPieces ps

/-- Python dict assignment `d[k] = v`: overwrite the entry if the key is
present, append it otherwise. -/
def dictInsert (d : List (Line × Line)) (k v : Line) : List (Line × Line) :=
  if d.any (fun p => p.1 = k) then
    d.map (fun p => if p.1 = k then (k, v) else p)
  else
    d ++ [(k, v)]

/-- Python dict lookup `d.get(k)` / `k in d`. -/
def dictGet? (d : List (Line × Line)) (k : Line) : Option Line :=
  (d.find? (fun p => p.1 = k)).map (fun p => p.2)

/-- The first marker token of a recognized parameter line. -/
def commentTok : Line := ("//").data

/-- The second marker token of a recognized parameter line. -/
def optParamTok : Line := ("@optionalParam").data

/-- The body of the loop of `WebAppUpdater._replace_parameters` for one
line: tokenize on whitespace; skip lines with fewer than five tokens or
whose first two tokens are not `// @optionalParam`; otherwise, if the
third token is a key of `values`, record the fifth token in `old`,
replace it by the desired value and rejoin with single spaces. -/
def processLine (values old : List (Line × Line)) (l : Line) :
    Line × List (Line × Line) :=
  match tokens l with
  | p0 :: p1 :: p2 :: p3 :: p4 :: rest =>
    if p0 = commentTok ∧ p1 = optParamTok then
      match dictGet? values p2 with
      | some v =>
        (joinPieces (p0 :: p1 :: p2 :: p3 :: v :: rest), dictInsert old p2 p4)
      | none => (l, old)
    else
      (l, old)
  | _ => (l, old)

/-- The loop of `WebAppUpdater._replace_parameters`, threading the `old`
dictionary through the lines. -/
def replaceAux (values : List (Line × Line)) :
    List Line → List (Line × Line) → List Line × List (Line × Line)
  | [], old => ([], old)
  | l :: ls, old =>
    let p := processLine values old l
    let r := replaceAux values ls p.2
    (p.1 :: r.1, r.2)

/-- Model of `WebAppUpdater._replace_parameters(lines, values)`: returns the
modified lines together with the dictionary of previous values. -/
def replace_parameters (lines : List Line) (values : List (Line × Line)) :
    List Line × List (Line × Line) :=
  replaceAux values lines []

/-- The new text of one line, as a function of the line alone (the
rewritten first component of `processLine` does not depend on `old`). -/
def lineOut (values : List (Line × Line)) (l : Line) : Line :=
  (processLine values [] l).1

/-- Does this line match the recognized pattern and declare parameter
`k`? (at least five tokens, marker pair `// @optionalParam`, third token
equal to `k`). -/
def lineDeclares (k : Line) (l : Line) : Bool :=
  match tokens l with
  | p0 :: p1 :: p2 :: _ :: _ :: _ =>
    decide (p0 = commentTok) && decide (p1 = optParamTok) && decide (p2 = k)
  | _ => false

/-- The fifth whitespace-delimited token of a line (its parameter value). -/
def fifthTok (l : Line) : Line := ((tokens l)[4]?).getD []

/-- The registry's answer to fetching the candidate image's manifest:
either the manifest is found (with a digest), or the fetch raises a
`V2DiagnosticException` carrying an HTTP status. -/
inductive FetchResult where
  | found (digest : Line)
  | errStatus (status : Nat)
deriving DecidableEq

/-- One observable side effect of a run, in order of occurrence:
appending to the ssh known-hosts file, `repo.create_remote`, fetching a
manifest from the registry, running the `make build-gcb` build, writing
the patched prototype file (atomic temp-write plus rename), a branch
checkout (`create` marks `git checkout -b`), listing open PRs with
`hub pr list`, `repo.index.commit`, `git push -f`, and
`hub pull-request`. -/
inductive Effect where
  | writeKnownHosts
  | addRemote (name url : Line)
  | fetchManifest (image : Line)
  | buildImage (buildProject registryProject tag : Line)
  | writeConfigFile (content : List Line)
  | checkoutBranch (name : Line) (create : Bool)
  | listOpenPRs
  | commitIndex (message : Line)
  | pushForce (remoteName : Line)
  | createPR (title : Line)
deriving DecidableEq

/-- Exceptions a run can raise: the `ValueError` for a non-ssh fork
URL, a re-raised registry exception with its status, and a Python
`KeyError` on a missing dictionary key. -/
inductive RunError where
  | valueError (msg : Line)
  | registryError (status : Nat)
  | keyError (key : Line)
deriving DecidableEq

/-- Oracle answers of the external world for one run. -/
structure Env where
  /-- The lines of `kubeflow/jupyter/prototypes/jupyter-web-app.jsonnet`
  (the file's text split on newline). -/
  configLines : List Line
  /-- The registry's answer for the candidate image's manifest. -/
  fetch : FetchResult
  /-- The structured document the build tool writes to its `OUTPUT`
  path, as a dictionary. -/
  buildOutputDoc : List (Line × Line)
  /-- The open pull requests reported by `hub pr list`, as parsed
  `(identifier, title)` records. -/
  openPRs : List (Line × Line)
  /-- Name of the active branch, `repo.active_branch.name`. -/
  activeBranch : Line
  /-- The names of the local branches. -/
  branches : List Line
  /-- The configured remotes: `(name, urls)` for each. -/
  remotes : List (Line × List Line)
  /-- The memoized `last_commit` value (git log of the component dir). -/
  lastCommit : Line

/-- The parameter key the updater rewrites. -/
def imageKey : Line := ("image").data

/-- The required scheme of the remote fork URL. -/
def sshScheme : Line := ("git@github.com").data

/-- The message of the `ValueError` raised for a non-ssh fork URL. -/
def sshErrMsg : Line := ("Remote fork currently only supports ssh").data

/-- Model of the split `s.split(c, 1)[-1]`: everything after the first
occurrence of `c`, or the whole string when `c` is absent. -/
def afterFirst (c : Char) : Line → Line
  | [] => []
  | x :: xs => if x = c then xs else afterFirst c xs

/-- Is `c` present in the string? (whether `split(c, 1)` splits at all). -/
def containsChar (c : Char) : Line → Bool
  | [] => false
  | x :: xs => x = c || containsChar c xs

/-- Model of the split `s.split(c, 1)[0]`: everything before the first
occurrence of `c`,
or the whole string when `c` is absent. -/
def beforeFirst (c : Char) : Line → Line
  | [] => []
  | x :: xs => if x = c then [] else x :: beforeFirst c xs

/-- Model of the fork-name computation on the fork URL (split on the
first colon, take the tail, split on the first slash, take the head):
the name the new
remote is registered under. -/
def forkName (url : Line) : Line :=
  beforeFirst '/' (if containsChar ':' url then afterFirst ':' url else url)

/-- Model of `WebAppUpdater._find_remote_repo`: the first configured remote one
of whose URLs equals the fork URL, if any. -/
def find_remote_repo (remotes : List (Line × List Line)) (remote_url : Line) :
    Option (Line × List Line) :=
  remotes.find? (fun r => r.2.any (fun u => remote_url = u))

/-- Model of the candidate reference `gcr.io/<registry_project>/jupyter-web-app:<last_commit>`:
the candidate image reference checked against the registry. -/
def candidateImage (registryProject lastCommit : Line) : Line :=
  ("gcr.io/").data ++ registryProject ++ ("/jupyter-web-app:").data ++ lastCommit

/-- Model of `WebAppUpdater._pr_title(commit)`. -/
def pr_title (commit : Line) : Line :=
  ("[auto PR] Update the jupyter-web-app image to ").data ++ commit

/-- The commit message: the fixed text followed by the image reference. -/
def commitMessage (image : Line) : Line :=
  ("Update the jupyter web app image to ").data ++ image

/-- The branch name: `update_jupyter_` followed by the last commit. -/
def branchNameOf (lastCommit : Line) : Line :=
  ("update_jupyter_").data ++ lastCommit

/-- Model of `WebAppUpdater._check_if_pr_exists`: build the title-keyed
dictionary from the open-PR records and test membership of the
deterministic title — that is, whether some record's title equals it. -/
def check_if_pr_exists (openPRs : List (Line × Line)) (commit : Line) : Bool :=
  openPRs.any (fun p => p.2 = pr_title commit)

/-- The output-document step of `WebAppUpdater.build_image`: after the
`make build-gcb` run (recorded as an `Effect.buildImage` by the caller),
read the structured `OUTPUT` document and return `data["image"]`;
a missing key is a Python `KeyError`. -/
def build_image (outputDoc : List (Line × Line)) : Except RunError Line :=
  match dictGet? outputDoc imageKey with
  | some v => Except.ok v
  | none => Except.error (RunError.keyError imageKey)

/-- Model of `WebAppUpdater.update_prototype(image)`: patch the config lines with
the single-key image mapping; the previous value of `image` is read back unconditionally
unconditionally (a missing key is a `KeyError`); when the previous value
already equals the new image, return `none` with no effects; otherwise
write the patched file (temp-write plus rename, recorded as one
`writeConfigFile` effect) and return the patched file. -/
def update_prototype (cfg : List Line) (image : Line) :
    Except RunError (List Effect × Option (List Line)) :=
  match dictGet? (replace_parameters cfg [(imageKey, image)]).2 imageKey with
  | none => Except.error (RunError.keyError imageKey)
  | some oldv =>
    if oldv = image then Except.ok ([], none)
    else
      Except.ok ([Effect.writeConfigFile (replace_parameters cfg [(imageKey, image)]).1],
                 some (replace_parameters cfg [(imageKey, image)]).1)

/-- The name of the remote the push targets: the matching existing
remote's name, or the fork name the new remote is created under. -/
def remoteNameOf (env : Env) (remoteFork : Line) : Line :=
  match find_remote_repo env.remotes remoteFork with
  | some r => r.1
  | none => forkName remoteFork

/-- The remote-registration effects: none when a remote with the fork
URL already exists, else one `create_remote`. -/
def remoteEffOf (env : Env) (remoteFork : Line) : List Effect :=
  match find_remote_repo env.remotes remoteFork with
  | some _ => []
  | none => [Effect.addRemote (forkName remoteFork) remoteFork]

/-- The effects of a run up to and including the registry fetch:
the optional known-hosts append, the optional remote creation, and the
manifest fetch of the candidate image. -/
def preEff (env : Env) (registryProject remoteFork : Line)
    (addGithubHost : Bool) : List Effect :=
  (if addGithubHost then [Effect.writeKnownHosts] else [])
    ++ remoteEffOf env remoteFork
    ++ [Effect.fetchManifest (candidateImage registryProject env.lastCommit)]

/-- The branch-checkout effects of lines 235-243 of `WebAppUpdater.all`:
nothing when already on the branch, a plain checkout when the branch
exists locally, a creating checkout otherwise. -/
def branchEff (env : Env) : List Effect :=
  if env.activeBranch = branchNameOf env.lastCommit then []
  else if branchNameOf env.lastCommit ∈ env.branches then
    [Effect.checkoutBranch (branchNameOf env.lastCommit) false]
  else
    [Effect.checkoutBranch (branchNameOf env.lastCommit) true]

/-- Lines 225-260 of `WebAppUpdater.all`, after the image reference is
resolved: `update_prototype`, early return when it reports no update,
branch checkout, the duplicate-PR check with its early return, then
commit, force-push and PR creation. -/
def continueAfterImage (env : Env) (eff : List Effect)
    (remoteName image : Line) : List Effect × Except RunError Unit :=
  match update_prototype env.configLines image with
  | Except.error e => (eff, Except.error e)
  | Except.ok (upEff, none) => (eff ++ upEff, Except.ok ())
  | Except.ok (upEff, some _) =>
    if check_if_pr_exists env.openPRs env.lastCommit then
      (eff ++ upEff ++ branchEff env ++ [Effect.listOpenPRs], Except.ok ())
    else
      (eff ++ upEff ++ branchEff env ++ [Effect.listOpenPRs]
         ++ [Effect.commitIndex (commitMessage image),
             Effect.pushForce remoteName,
             Effect.createPR (pr_title env.lastCommit)],
       Except.ok ())

/-- Model of `WebAppUpdater.all(build_project, registry_project, remote_fork,
add_github_host)`: the optional known-hosts append, the ssh-scheme
validation of the fork URL, remote lookup or creation, the registry
check of the candidate image (404 means build, any other status
re-raises), and the downstream patch/branch/PR pipeline. Returns the
effect trace and the run's outcome. -/
def runAll (env : Env) (buildProject registryProject remoteFork : Line)
    (addGithubHost : Bool) : List Effect × Except RunError Unit :=
  if sshScheme.isPrefixOf remoteFork then
    match env.fetch with
    | FetchResult.found _ =>
      continueAfterImage env (preEff env registryProject remoteFork addGithubHost)
        (remoteNameOf env remoteFork)
        (candidateImage registryProject env.lastCommit)
    | FetchResult.errStatus s =>
      if s = 404 then
        match build_image env.buildOutputDoc with
        | Except.ok builtImage =>
          continueAfterImage env
            (preEff env registryProject remoteFork addGithubHost
              ++ [Effect.buildImage buildProject registryProject env.lastCommit])
            (remoteNameOf env remoteFork) builtImage
        | Except.error e =>
          (preEff env registryProject remoteFork addGithubHost
            ++ [Effect.buildImage buildProject registryProject env.lastCommit],
           Except.error e)
      else
        (preEff env registryProject remoteFork addGithubHost,
         Except.error (RunError.registryError s))
  else
    ((if addGithubHost then [Effect.writeKnownHosts] else []),
     Except.error (RunError.valueError sshErrMsg))

/-- The image reference the run uses downstream when it gets past the
registry check: the candidate reference when the manifest is found, the
`image` field of the build output document otherwise. -/
def resolvedImage (env : Env) (registryProject : Line) : Line :=
  match env.fetch with
  | FetchResult.found _ => candidateImage registryProject env.lastCommit
  | FetchResult.errStatus _ => (dictGet? env.buildOutputDoc imageKey).getD []

/-- Is this effect the `make build-gcb` invocation? -/
def Effect.isBuild : Effect → Bool
  | Effect.buildImage _ _ _ => true
  | _ => false

/-- Is this effect a commit? -/
def Effect.isCommit : Effect → Bool
  | Effect.commitIndex _ => true
  | _ => false

/-- Is this effect a push? -/
def Effect.isPush : Effect → Bool
  | Effect.pushForce _ => true
  | _ => false

/-- Is this effect a PR creation? -/
def Effect.isCreatePR : Effect → Bool
  | Effect.createPR _ => true
  | _ => false

/-- Is this effect the open-PR listing query? -/
def Effect.isListPRs : Effect → Bool
  | Effect.listOpenPRs => true
  | _ => false

/-- Is this effect the config-file write? -/
def Effect.isWriteConfig : Effect → Bool
  | Effect.writeConfigFile _ => true
  | _ => false

/-- Is this effect a branch checkout or creation? -/
def Effect.isCheckout : Effect → Bool
  | Effect.checkoutBranch _ _ => true
  | _ => false

/-- Is this effect a remote registration? -/
def Effect.isAddRemote : Effect → Bool
  | Effect.addRemote _ _ => true
  | _ => false

/-- Is this effect a write to some file (known-hosts append or
config-file write)? -/
def Effect.isFileWrite : Effect → Bool
  | Effect.writeKnownHosts => true
  | Effect.writeConfigFile _ => true
  | _ => false

/-- Example build project argument. -/
def exBuildProject : Line := ("kubeflow-ci").data

/-- Example registry project argument. -/
def exRegistryProject : Line := ("kubeflow-images-public").data

/-- Example ssh-scheme remote fork URL. -/
def exFork : Line := ("git@github.com:jlewi/kubeflow.git").data

/-- Example non-ssh remote fork URL. -/
def exBadFork : Line := ("https://github.com/jlewi/kubeflow.git").data

/-- Example last-commit value. -/
def exCommit : Line := ("abc123").data

/-- Example config line whose image value is stale. -/
def exOldLine : Line :=
  ("// @optionalParam image string gcr.io/kubeflow-images-public/jupyter-web-app:old000 The image").data

/-- Example config line whose image value is already the candidate image. -/
def exCurLine : Line :=
  ("// @optionalParam image string gcr.io/kubeflow-images-public/jupyter-web-app:abc123 The image").data

/-- Example environment: stale config, candidate image missing from the
registry (404), and a build-output document carrying the candidate
reference. -/
def exEnv : Env where
  configLines := [exOldLine]
  fetch := FetchResult.errStatus 404
  buildOutputDoc := [(imageKey, candidateImage exRegistryProject exCommit)]
  openPRs := []
  activeBranch := ("master").data
  branches := []
  remotes := [(("origin").data, [("git@github.com:kubeflow/kubeflow.git").data])]
  lastCommit := exCommit

/-- Example environment: the image exists and the config already holds
it (the common repeated-run case). -/
def envStale : Env :=
  { exEnv with fetch := FetchResult.found [], configLines := [exCurLine] }

/-- Example environment: the image exists, the config is stale, and an
open PR with the deterministic title is already listed. -/
def envDupPR : Env :=
  { exEnv with
    fetch := FetchResult.found []
    openPRs := [(("https://github.com/kubeflow/kubeflow/pull/1").data,
                 pr_title exCommit)] }

/-- Example environment: the registry fetch fails with status 500. -/
def envErr500 : Env := { exEnv with fetch := FetchResult.errStatus 500 }

/-- Idempotence counterexample line: a well-formed parameter line. -/
def cexLine8 : Line := ("// @optionalParam image string old desc").data

/-- Idempotence counterexample value: contains a space, so rejoining and
re-tokenizing shifts positions. -/
def cexVal8 : Line := ("a b").data

/-- A config text with no line declaring the `image` parameter. -/
def noMatchCfg : List Line := [("local x = 1;").data]

/-- First of two lines declaring the same parameter. -/
def declLine1 : Line := ("// @optionalParam image string img1 First").data

/-- Second of two lines declaring the same parameter. -/
def declLine2 : Line := ("// @optionalParam image string img2 Second").data

/-- Lookup of a cons cell: hit the head or recurse. -/
theorem dictGet?_cons (p : Line × Line) (d : List (Line × Line)) (k : Line) :
    dictGet? (p :: d) k = if p.1 = k then some p.2 else dictGet? d k := by
  by_cases h : p.1 = k <;> simp [dictGet?, List.find?_cons, h]

/-- Overwriting key `k` in place does not change the lookup of another
key. -/
theorem lookup_map_overwrite_ne (d : List (Line × Line)) (k v k' : Line)
    (hkk : k' ≠ k) :
    dictGet? (d.map (fun p => if p.1 = k then (k, v) else p)) k'
      = dictGet? d k' := by
  induction d with
  | nil => rfl
  | cons p d ih =>
    by_cases hp : p.1 = k
    · have h1 : ¬((k, v).1 = k') := fun h => hkk h.symm
      have h2 : ¬(p.1 = k') := by rw [hp]; exact fun h => hkk h.symm
      simpa [List.map_cons, hp, dictGet?_cons, h1, h2] using ih
    · simp only [List.map_cons, hp, if_false]
      by_cases hp' : p.1 = k'
      · simp [dictGet?_cons, hp, hp']
      · simpa [dictGet?_cons, hp, hp'] using ih

/-- When the key occurs, overwriting it makes its lookup the new value. -/
theorem lookup_map_overwrite_self (d : List (Line × Line)) (k v : Line)
    (hany : d.any (fun p => decide (p.1 = k)) = true) :
    dictGet? (d.map (fun p => if p.1 = k then (k, v) else p)) k = some v := by
  induction d with
  | nil => simp at hany
  | cons p d ih =>
    by_cases hp : p.1 = k
    · simp [List.map_cons, hp, dictGet?_cons]
    · have hd : d.any (fun p => decide (p.1 = k)) = true := by
        have h0 := hany
        simp only [List.any_cons] at h0
        rcases Bool.or_eq_true_iff.mp h0 with h | h
        · exact absurd (of_decide_eq_true h) hp
        · exact h
      simpa [List.map_cons, hp, dictGet?_cons] using ih hd

/-- When the key is absent, appending it makes its lookup the new value. -/
theorem lookup_append_single_self (d : List (Line × Line)) (k v : Line)
    (hany : d.any (fun p => decide (p.1 = k)) = false) :
    dictGet? (d ++ [(k, v)]) k = some v := by
  induction d with
  | nil => simp [dictGet?_cons]
  | cons p d ih =>
    have h0 := hany
    simp only [List.any_cons, Bool.or_eq_false_iff] at h0
    have hp : ¬(p.1 = k) := by
      intro h
      have := h0.1
      rw [decide_eq_false_iff_not] at this
      exact this h
    simpa [List.cons_append, dictGet?_cons, hp] using ih h0.2

/-- Appending an entry for key `k` does not change the lookup of another
key. -/
theorem lookup_append_single_ne (d : List (Line × Line)) (k v k' : Line)
    (hkk : k' ≠ k) :
    dictGet? (d ++ [(k, v)]) k' = dictGet? d k' := by
  induction d with
  | nil =>
    have h1 : ¬((k, v).1 = k') := fun h => hkk h.symm
    simp [dictGet?_cons, h1, dictGet?]
  | cons p d ih =>
    by_cases hp : p.1 = k'
    · simp [List.cons_append, dictGet?_cons, hp]
    · simpa [List.cons_append, dictGet?_cons, hp] using ih

/-- Inserting under key `k` makes its lookup read back the new value. -/
theorem dictGet?_dictInsert_self (d : List (Line × Line)) (k v : Line) :
    dictGet? (dictInsert d k v) k = some v := by
  unfold dictInsert
  cases hb : d.any (fun p => decide (p.1 = k)) with
  | true => simpa [hb] using lookup_map_overwrite_self d k v hb
  | false => simpa [hb] using lookup_append_single_self d k v hb

/-- Inserting under key `k` leaves the lookup of any other key unchanged. -/
theorem dictGet?_dictInsert_ne (d : List (Line × Line)) (k v k' : Line)
    (hkk : k' ≠ k) :
    dictGet? (dictInsert d k v) k' = dictGet? d k' := by
  unfold dictInsert
  cases hb : d.any (fun p => decide (p.1 = k)) with
  | true => simpa [hb] using lookup_map_overwrite_ne d k v k' hkk
  | false => simpa [hb] using lookup_append_single_ne d k v k' hkk

/-- The rewritten text of a line does not depend on the accumulated
previous-value dictionary. -/
theorem processLine_fst (values old : List (Line × Line)) (l : Line) :
    (processLine values old l).1 = lineOut values l := by
  unfold lineOut processLine
  generalize tokens l = ts
  rcases ts with _ | ⟨p0, _ | ⟨p1, _ | ⟨p2, _ | ⟨p3, _ | ⟨p4, rest⟩⟩⟩⟩⟩ <;> try rfl
  by_cases h : p0 = commentTok ∧ p1 = optParamTok
  · rcases hv : dictGet? values p2 with _ | v <;> simp [h, hv]
  · simp [h]

/-- The loop of `_replace_parameters` rewrites the lines pointwise. -/
theorem replaceAux_fst (values : List (Line × Line)) (ls : List Line)
    (old : List (Line × Line)) :
    (replaceAux values ls old).1 = ls.map (lineOut values) := by
  induction ls generalizing old with
  | nil => rfl
  | cons l ls ih => simp [replaceAux, processLine_fst, ih]

/-- A line with fewer than five tokens, or whose first two tokens are
not the marker pair, is left unchanged. -/
theorem lineOut_skip (values : List (Line × Line)) (l : Line)
    (h : (tokens l).length < 5 ∨ (tokens l).take 2 ≠ [commentTok, optParamTok]) :
    lineOut values l = l := by
  unfold lineOut processLine
  rcases htok : tokens l with _ | ⟨p0, _ | ⟨p1, _ | ⟨p2, _ | ⟨p3, _ | ⟨p4, rest⟩⟩⟩⟩⟩ <;>
    try rfl
  rw [htok] at h
  have hne : ¬(p0 = commentTok ∧ p1 = optParamTok) := by
    rcases h with h | h
    · simp only [List.length_cons] at h
      omega
    · intro hc
      apply h
      simp [hc.1, hc.2]
  simp [hne]

/-- A matching line whose parameter is a key of `values` is rewritten
with the desired value and records its fifth token under that key. -/
theorem processLine_hit (values old : List (Line × Line)) (l : Line)
    (p0 p1 p2 p3 p4 : Line) (rest : List Line) (v : Line)
    (htok : tokens l = p0 :: p1 :: p2 :: p3 :: p4 :: rest)
    (h0 : p0 = commentTok) (h1 : p1 = optParamTok)
    (hv : dictGet? values p2 = some v) :
    processLine values old l
      = (joinPieces (p0 :: p1 :: p2 :: p3 :: v :: rest),
         dictInsert old p2 p4) := by
  unfold processLine
  rw [htok]
  simp [h0, h1, hv]

/-- A line that does not declare `k` leaves the lookup of `k` in the
previous-value dictionary unchanged. -/
theorem processLine_snd_ne (values old : List (Line × Line)) (k l : Line)
    (h : lineDeclares k l = false) :
    dictGet? (processLine values old l).2 k = dictGet? old k := by
  unfold processLine
  unfold lineDeclares at h
  rcases htok : tokens l with _ | ⟨p0, _ | ⟨p1, _ | ⟨p2, _ | ⟨p3, _ | ⟨p4, rest⟩⟩⟩⟩⟩ <;>
    rw [htok] at h <;> try rfl
  have h' : (decide (p0 = commentTok) && decide (p1 = optParamTok)
      && decide (p2 = k)) = false := h
  by_cases hm : p0 = commentTok ∧ p1 = optParamTok
  · have hk : ¬(p2 = k) := by
      intro hc
      rw [hm.1, hm.2, hc] at h'
      simp at h'
    rcases hv : dictGet? values p2 with _ | v
    · simp [hm, hv]
    · simp only [hm, and_self, if_true, hv]
      exact dictGet?_dictInsert_ne old p2 p4 k fun hc => hk hc.symm
  · simp [hm]

/-- A line that declares `k` (with `k` a key of `values`) sets the
recorded previous value of `k` to its own fifth token. -/
theorem processLine_snd_self (values old : List (Line × Line)) (k l v : Line)
    (h : lineDeclares k l = true) (hv : dictGet? values k = some v) :
    dictGet? (processLine values old l).2 k = some (fifthTok l) := by
  unfold processLine
  unfold lineDeclares at h
  rcases htok : tokens l with _ | ⟨p0, _ | ⟨p1, _ | ⟨p2, _ | ⟨p3, _ | ⟨p4, rest⟩⟩⟩⟩⟩ <;>
    rw [htok] at h <;>
    try exact absurd (show (false : Bool) = true from h) (by decide)
  have h' : (decide (p0 = commentTok) && decide (p1 = optParamTok)
      && decide (p2 = k)) = true := h
  simp only [Bool.and_eq_true, decide_eq_true_eq] at h'
  obtain ⟨⟨h0, h1⟩, h2⟩ := h'
  have hvp : dictGet? values p2 = some v := by rw [h2]; exact hv
  simp only [h0, h1, and_self, if_true, hvp]
  have hins : dictGet? (dictInsert old p2 p4) k = some p4 := by
    rw [h2]
    exact dictGet?_dictInsert_self old k p4
  rw [hins]
  unfold fifthTok
  rw [htok]
  simp

/-- If no line of `ls` declares `k`, the loop leaves the lookup of `k`
unchanged. -/
theorem replaceAux_snd_no_decl (values : List (Line × Line)) (k : Line)
    (ls : List Line) (old : List (Line × Line))
    (h : ∀ l ∈ ls, lineDeclares k l = false) :
    dictGet? (replaceAux values ls old).2 k = dictGet? old k := by
  induction ls generalizing old with
  | nil => rfl
  | cons l ls ih =>
    simp only [replaceAux]
    rw [ih _ fun x hx => h x (List.mem_cons_of_mem _ hx)]
    exact processLine_snd_ne values old k l (h l (List.mem_cons_self _ _))

/-- The lookup of `k` after the loop: the fifth token of the last line
declaring `k`, or the incoming value when no line declares it. -/
theorem replaceAux_snd_lookup (values : List (Line × Line)) (k v : Line)
    (hv : dictGet? values k = some v) (ls : List Line)
    (old : List (Line × Line)) :
    dictGet? (replaceAux values ls old).2 k
      = match (ls.filter (lineDeclares k)).getLast? with
        | some lst => some (fifthTok lst)
        | none => dictGet? old k := by
  induction ls generalizing old with
  | nil => rfl
  | cons l ls ih =>
    cases hd : lineDeclares k l with
    | false =>
      simp only [replaceAux]
      rw [ih]
      simp only [List.filter_cons, hd, if_false, Bool.false_eq_true]
      cases hlast : (ls.filter (lineDeclares k)).getLast? with
      | none => exact processLine_snd_ne values old k l hd
      | some lst => rfl
    | true =>
      simp only [replaceAux]
      rw [ih]
      simp only [List.filter_cons, hd, if_true]
      cases hfs : ls.filter (lineDeclares k) with
      | nil =>
        simp only [List.getLast?_singleton, List.getLast?_nil]
        exact processLine_snd_self values old k l v hd hv
      | cons a t =>
        rw [List.getLast?_cons_cons]
        have hsome : ((a :: t).getLast?).isSome := by
          simp [List.getLast?_isSome]
        cases hl2 : (a :: t).getLast? with
        | none => rw [hl2] at hsome; simp at hsome
        | some lst => rfl

/-- Every token the scanner emits is nonempty and whitespace-free. -/
theorem tokensAux_clean (cs : List Char) (cur : Line)
    (hcur : ∀ c ∈ cur, c.isWhitespace = false) :
    ∀ t ∈ tokensAux cs cur, t ≠ [] ∧ ∀ c ∈ t, c.isWhitespace = false := by
  induction cs generalizing cur with
  | nil =>
    intro t ht
    unfold tokensAux at ht
    by_cases h : cur = []
    · rw [if_pos h] at ht
      exact absurd ht (List.not_mem_nil t)
    · rw [if_neg h] at ht
      rw [List.mem_singleton.mp ht]
      exact ⟨h, hcur⟩
  | cons c cs ih =>
    intro t ht
    unfold tokensAux at ht
    by_cases hw : c.isWhitespace = true
    · rw [if_pos hw] at ht
      by_cases h : cur = []
      · rw [if_pos h] at ht
        exact ih [] (by simp) t ht
      · rw [if_neg h] at ht
        rcases List.mem_cons.mp ht with rfl | ht'
        · exact ⟨h, hcur⟩
        · exact ih [] (by simp) t ht'
    · rw [if_neg hw] at ht
      refine ih (cur ++ [c]) ?_ t ht
      intro x hx
      rcases List.mem_append.mp hx with hx | hx
      · exact hcur x hx
      · rw [List.mem_singleton.mp hx]
        exact eq_false_of_ne_true hw

/-- The tokens of any line are nonempty and whitespace-free. -/
theorem tokens_clean (l : Line) :
    ∀ t ∈ tokens l, t ≠ [] ∧ ∀ c ∈ t, c.isWhitespace = false :=
  tokensAux_clean l [] (by simp)

/-- Scanning a whitespace-free word appends it to the current run. -/
theorem tokensAux_append (p : Line)
    (hp : ∀ c ∈ p, c.isWhitespace = false) (rest : List Char) (cur : Line) :
    tokensAux (p ++ rest) cur = tokensAux rest (cur ++ p) := by
  induction p generalizing cur with
  | nil => simp
  | cons c p ih =>
    have hc : c.isWhitespace = false := hp c (List.mem_cons_self _ _)
    simp only [List.cons_append, tokensAux, hc, Bool.false_eq_true, if_false]
    show tokensAux (p ++ rest) (cur ++ [c]) = tokensAux rest (cur ++ c :: p)
    rw [ih (fun x hx => hp x (List.mem_cons_of_mem _ hx)) (cur ++ [c])]
    simp

/-- Tokenizing a single-space join of clean nonempty words gives the
words back. -/
theorem tokens_joinPieces (ps : List Line)
    (hps : ∀ p ∈ ps, p ≠ [] ∧ ∀ c ∈ p, c.isWhitespace = false) :
    tokens (joinPieces ps) = ps := by
  induction ps with
  | nil => rfl
  | cons p ps ih =>
    obtain ⟨hne, hcl⟩ := hps p (List.mem_cons_self _ _)
    cases ps with
    | nil =>
      show tokens (joinPieces [p]) = [p]
      have h1 := tokensAux_append p hcl [] []
      simp only [List.append_nil, List.nil_append] at h1
      unfold tokens
      rw [show joinPieces [p] = p from rfl, h1]
      unfold tokensAux
      rw [if_neg hne]
    | cons q ps' =>
      show tokens (p ++ ' ' :: joinPieces (q :: ps')) = p :: q :: ps'
      unfold tokens
      have h1 := tokensAux_append p hcl (' ' :: joinPieces (q :: ps')) []
      simp only [List.nil_append] at h1
      rw [h1]
      simp only [tokensAux]
      rw [if_pos (by decide), if_neg hne]
      have ih2 := ih (fun x hx => hps x (List.mem_cons_of_mem _ hx))
      unfold tokens at ih2
      rw [ih2]

/-- A matching line whose parameter is not a key of `values` is left
unchanged. -/
theorem lineOut_nokey (values : List (Line × Line)) (l : Line)
    (p0 p1 p2 p3 p4 : Line) (rest : List Line)
    (htok : tokens l = p0 :: p1 :: p2 :: p3 :: p4 :: rest)
    (hvp : dictGet? values p2 = none) :
    lineOut values l = l := by
  unfold lineOut processLine
  rw [htok]
  by_cases hm : p0 = commentTok ∧ p1 = optParamTok
  · simp [hm, hvp]
  · simp [hm]

/-- Rewriting one line twice with clean nonempty desired values is the
same as rewriting it once. -/
theorem lineOut_idem (values : List (Line × Line))
    (hv : ∀ p ∈ values, p.2 ≠ [] ∧ ∀ c ∈ p.2, c.isWhitespace = false)
    (l : Line) : lineOut values (lineOut values l) = lineOut values l := by
  rcases htok : tokens l with _ | ⟨p0, _ | ⟨p1, _ | ⟨p2, _ | ⟨p3, _ | ⟨p4, rest⟩⟩⟩⟩⟩
  · have he : lineOut values l = l :=
      lineOut_skip values l (by rw [htok]; left; simp)
    rw [he, he]
  · have he : lineOut values l = l :=
      lineOut_skip values l (by rw [htok]; left; simp)
    rw [he, he]
  · have he : lineOut values l = l :=
      lineOut_skip values l (by rw [htok]; left; simp)
    rw [he, he]
  · have he : lineOut values l = l :=
      lineOut_skip values l (by rw [htok]; left; simp)
    rw [he, he]
  · have he : lineOut values l = l :=
      lineOut_skip values l (by rw [htok]; left; simp)
    rw [he, he]
  · by_cases hm : p0 = commentTok ∧ p1 = optParamTok
    · rcases hvp : dictGet? values p2 with _ | v
      · have he : lineOut values l = l := lineOut_nokey values l p0 p1 p2 p3 p4 rest htok hvp
        rw [he, he]
      · have hfst : lineOut values l = joinPieces (p0 :: p1 :: p2 :: p3 :: v :: rest) := by
          unfold lineOut
          rw [processLine_hit values [] l p0 p1 p2 p3 p4 rest v htok hm.1 hm.2 hvp]
        have hvclean : v ≠ [] ∧ ∀ c ∈ v, c.isWhitespace = false := by
          unfold dictGet? at hvp
          rcases Option.map_eq_some'.mp hvp with ⟨pr, hfind, hsnd⟩
          have hmem := List.mem_of_find?_eq_some hfind
          rw [← hsnd]
          exact hv pr hmem
        have hclean : ∀ x ∈ p0 :: p1 :: p2 :: p3 :: v :: rest,
            x ≠ [] ∧ ∀ c ∈ x, c.isWhitespace = false := by
          intro x hx
          have htl := tokens_clean l
          rw [htok] at htl
          rcases List.mem_cons.mp hx with rfl | hx
          · exact htl x (by simp)
          rcases List.mem_cons.mp hx with rfl | hx
          · exact htl x (by simp)
          rcases List.mem_cons.mp hx with rfl | hx
          · exact htl x (by simp)
          rcases List.mem_cons.mp hx with rfl | hx
          · exact htl x (by simp)
          rcases List.mem_cons.mp hx with rfl | hx
          · exact hvclean
          · exact htl x (by simp [hx])
        have htok2 : tokens (joinPieces (p0 :: p1 :: p2 :: p3 :: v :: rest))
            = p0 :: p1 :: p2 :: p3 :: v :: rest :=
          tokens_joinPieces _ hclean
        have hfst2 : lineOut values (joinPieces (p0 :: p1 :: p2 :: p3 :: v :: rest))
            = joinPieces (p0 :: p1 :: p2 :: p3 :: v :: rest) := by
          unfold lineOut
          rw [processLine_hit values [] _ p0 p1 p2 p3 v rest v htok2 hm.1 hm.2 hvp]
        rw [hfst, hfst2]
    · have hne : (tokens l).take 2 ≠ [commentTok, optParamTok] := by
        rw [htok]
        intro hc
        simp only [List.take_succ_cons, List.take_zero] at hc
        exact hm ⟨by injection hc, by injection hc with h1 h2; injection h2⟩
      have he : lineOut values l = l := lineOut_skip values l (Or.inr hne)
      rw [he, he]


/-- The shapes `update_prototype` can take: a missing-key fault, a
no-update outcome with no effects, or exactly one config-file write. -/
theorem update_prototype_cases (cfg : List Line) (image : Line) :
    update_prototype cfg image = Except.error (RunError.keyError imageKey)
  ∨ update_prototype cfg image = Except.ok ([], none)
  ∨ ∃ c, update_prototype cfg image
        = Except.ok ([Effect.writeConfigFile c], some c) := by
  unfold update_prototype
  rcases h : dictGet? (replace_parameters cfg [(imageKey, image)]).2 imageKey
    with _ | oldv
  · left; rfl
  · by_cases he : oldv = image
    · right; left; simp [he]
    · right; right
      exact ⟨(replace_parameters cfg [(imageKey, image)]).1, by simp [he]⟩

/-- When the recorded previous value equals the new image,
`update_prototype` reports no update and performs no write. -/
theorem update_prototype_stale (cfg : List Line) (image : Line)
    (h : dictGet? (replace_parameters cfg [(imageKey, image)]).2 imageKey
         = some image) :
    update_prototype cfg image = Except.ok ([], none) := by
  unfold update_prototype
  rw [h]
  simp

/-- When the recorded previous value equals the new image, the whole
downstream pipeline is skipped: the continuation returns with no new
effects. -/
theorem continueAfterImage_stale (env : Env) (eff : List Effect)
    (rn img : Line)
    (h : dictGet? (replace_parameters env.configLines [(imageKey, img)]).2
          imageKey = some img) :
    continueAfterImage env eff rn img = (eff, Except.ok ()) := by
  unfold continueAfterImage
  rw [update_prototype_stale env.configLines img h]
  simp

/-- Every branch-checkout effect really is a checkout. -/
theorem branchEff_checkout (env : Env) (e : Effect)
    (he : e ∈ branchEff env) : e.isCheckout = true := by
  unfold branchEff at he
  by_cases hb1 : env.activeBranch = branchNameOf env.lastCommit
  · rw [if_pos hb1] at he
    exact absurd he (List.not_mem_nil e)
  · rw [if_neg hb1] at he
    by_cases hb2 : branchNameOf env.lastCommit ∈ env.branches
    · rw [if_pos hb2] at he
      rw [List.mem_singleton.mp he]
      rfl
    · rw [if_neg hb2] at he
      rw [List.mem_singleton.mp he]
      rfl

/-- Every effect the continuation appends beyond its incoming prefix is
a config write, a branch checkout, the PR listing, or — only when the
duplicate-PR check is negative — a commit, push, or PR creation. -/
theorem continueAfterImage_mem (env : Env) (eff : List Effect)
    (rn img : Line) (e : Effect)
    (he : e ∈ (continueAfterImage env eff rn img).1) :
    e ∈ eff ∨ e.isWriteConfig = true ∨ e.isCheckout = true
  ∨ e = Effect.listOpenPRs
  ∨ (check_if_pr_exists env.openPRs env.lastCommit = false
      ∧ (e.isCommit = true ∨ e.isPush = true ∨ e.isCreatePR = true)) := by
  unfold continueAfterImage at he
  rcases update_prototype_cases env.configLines img with hc | hc | ⟨c, hc⟩ <;>
    rw [hc] at he
  · exact Or.inl he
  · simp only [List.append_nil] at he
    exact Or.inl he
  · replace he : e ∈
        (if check_if_pr_exists env.openPRs env.lastCommit = true then
          (eff ++ [Effect.writeConfigFile c] ++ branchEff env
            ++ [Effect.listOpenPRs], (Except.ok () : Except RunError Unit))
        else
          (eff ++ [Effect.writeConfigFile c] ++ branchEff env
            ++ [Effect.listOpenPRs]
            ++ [Effect.commitIndex (commitMessage img), Effect.pushForce rn,
                Effect.createPR (pr_title env.lastCommit)],
           Except.ok ())).1 := he
    by_cases hpr : check_if_pr_exists env.openPRs env.lastCommit = true
    · rw [if_pos hpr] at he
      rcases List.mem_append.mp he with he | he
      · rcases List.mem_append.mp he with he | he
        · rcases List.mem_append.mp he with he | he
          · exact Or.inl he
          · right; left
            rw [List.mem_singleton.mp he]
            rfl
        · exact Or.inr (Or.inr (Or.inl (branchEff_checkout env e he)))
      · exact Or.inr (Or.inr (Or.inr (Or.inl (List.mem_singleton.mp he))))
    · rw [if_neg hpr] at he
      have hprf : check_if_pr_exists env.openPRs env.lastCommit = false :=
        eq_false_of_ne_true hpr
      rcases List.mem_append.mp he with he | he
      · rcases List.mem_append.mp he with he | he
        · rcases List.mem_append.mp he with he | he
          · rcases List.mem_append.mp he with he | he
            · exact Or.inl he
            · right; left
              rw [List.mem_singleton.mp he]
              rfl
          · exact Or.inr (Or.inr (Or.inl (branchEff_checkout env e he)))
        · exact Or.inr (Or.inr (Or.inr (Or.inl (List.mem_singleton.mp he))))
      · rcases List.mem_cons.mp he with rfl | he
        · exact Or.inr (Or.inr (Or.inr (Or.inr ⟨hprf, Or.inl rfl⟩)))
        · rcases List.mem_cons.mp he with rfl | he
          · exact Or.inr (Or.inr (Or.inr (Or.inr ⟨hprf, Or.inr (Or.inl rfl)⟩)))
          · rw [List.mem_singleton.mp he]
            exact Or.inr (Or.inr (Or.inr (Or.inr ⟨hprf, Or.inr (Or.inr rfl)⟩)))

/-- The effects preceding image resolution are only the known-hosts
append, the remote creation, and the manifest fetch. -/
theorem preEff_mem (env : Env) (rp rf : Line) (agh : Bool) (e : Effect)
    (he : e ∈ preEff env rp rf agh) :
    e = Effect.writeKnownHosts ∨ e.isAddRemote = true
  ∨ e = Effect.fetchManifest (candidateImage rp env.lastCommit) := by
  unfold preEff at he
  rcases List.mem_append.mp he with he | he
  · rcases List.mem_append.mp he with he | he
    · by_cases ha : agh = true
      · rw [if_pos ha] at he
        exact Or.inl (List.mem_singleton.mp he)
      · rw [if_neg ha] at he
        exact absurd he (List.not_mem_nil e)
    · unfold remoteEffOf at he
      rcases hf : find_remote_repo env.remotes rf with _ | r <;> rw [hf] at he
      · right; left
        rw [List.mem_singleton.mp he]
        rfl
      · exact absurd he (List.not_mem_nil e)
  · right; right
    exact List.mem_singleton.mp he

/-- A non-ssh fork URL fails the validation: the run raises the
`ValueError` with only the optional known-hosts append performed. -/
theorem runAll_badFork (env : Env) (bp rp rf : Line) (agh : Bool)
    (h : sshScheme.isPrefixOf rf = false) :
    runAll env bp rp rf agh
      = ((if agh then [Effect.writeKnownHosts] else []),
         Except.error (RunError.valueError sshErrMsg)) := by
  unfold runAll
  rw [h]
  simp

/-- When the manifest is found, the run proceeds with the candidate
image and performs no build. -/
theorem runAll_found (env : Env) (bp rp rf : Line) (agh : Bool) (d : Line)
    (hf : sshScheme.isPrefixOf rf = true)
    (hd : env.fetch = FetchResult.found d) :
    runAll env bp rp rf agh
      = continueAfterImage env (preEff env rp rf agh) (remoteNameOf env rf)
          (candidateImage rp env.lastCommit) := by
  unfold runAll
  rw [hf, hd]
  simp

/-- When the fetch reports 404 and the build output document has an
`image` field, the run builds once and proceeds with that image. -/
theorem runAll_404_build (env : Env) (bp rp rf : Line) (agh : Bool) (v : Line)
    (hf : sshScheme.isPrefixOf rf = true)
    (h4 : env.fetch = FetchResult.errStatus 404)
    (hb : build_image env.buildOutputDoc = Except.ok v) :
    runAll env bp rp rf agh
      = continueAfterImage env
          (preEff env rp rf agh
            ++ [Effect.buildImage bp rp env.lastCommit])
          (remoteNameOf env rf) v := by
  unfold runAll
  rw [hf, h4, hb]
  simp

/-- When the fetch reports 404 and the build output document lacks the
`image` field, the run builds once and then raises the key fault. -/
theorem runAll_404_buildErr (env : Env) (bp rp rf : Line) (agh : Bool)
    (er : RunError)
    (hf : sshScheme.isPrefixOf rf = true)
    (h4 : env.fetch = FetchResult.errStatus 404)
    (hb : build_image env.buildOutputDoc = Except.error er) :
    runAll env bp rp rf agh
      = (preEff env rp rf agh ++ [Effect.buildImage bp rp env.lastCommit],
         Except.error er) := by
  unfold runAll
  rw [hf, h4, hb]
  simp

/-- A fetch failure with any status other than 404 re-raises and stops
the run before any build. -/
theorem runAll_non404 (env : Env) (bp rp rf : Line) (agh : Bool) (s : Nat)
    (hf : sshScheme.isPrefixOf rf = true)
    (hs : env.fetch = FetchResult.errStatus s) (h4 : s ≠ 404) :
    runAll env bp rp rf agh
      = (preEff env rp rf agh, Except.error (RunError.registryError s)) := by
  unfold runAll
  rw [hf, hs]
  simp [h4]

/-- An effect satisfying the build discriminator is a build invocation. -/
theorem isBuild_eq (e : Effect) (h : e.isBuild = true) :
    ∃ a b c, e = Effect.buildImage a b c := by
  cases e <;> first
    | exact ⟨_, _, _, rfl⟩
    | simp [Effect.isBuild] at h

/-- No pre-resolution or continuation-side non-publish effect is a
commit, push, or PR creation. -/
theorem not_publish_of_other (e : Effect)
    (h : e = Effect.writeKnownHosts ∨ e.isAddRemote = true
      ∨ (∃ i, e = Effect.fetchManifest i) ∨ e.isBuild = true
      ∨ e.isWriteConfig = true ∨ e.isCheckout = true
      ∨ e = Effect.listOpenPRs)
    (hp : e.isCommit = true ∨ e.isPush = true ∨ e.isCreatePR = true) :
    False := by
  cases e <;>
    simp [Effect.isAddRemote, Effect.isBuild, Effect.isWriteConfig,
      Effect.isCheckout, Effect.isCommit, Effect.isPush,
      Effect.isCreatePR] at h hp

/-- The effects before image resolution are neither config writes nor
any of the publish steps. -/
theorem pre_no_publish (e : Effect)
    (h : e = Effect.writeKnownHosts ∨ e.isAddRemote = true
      ∨ (∃ i, e = Effect.fetchManifest i) ∨ e.isBuild = true) :
    e.isWriteConfig = false ∧ e.isCommit = false ∧ e.isPush = false
      ∧ e.isListPRs = false ∧ e.isCreatePR = false := by
  cases e <;>
    simp [Effect.isAddRemote, Effect.isBuild, Effect.isWriteConfig,
      Effect.isCommit, Effect.isPush, Effect.isListPRs,
      Effect.isCreatePR] at h ⊢

/-- If a build effect occurs in a run's trace, the registry fetch
reported 404. -/
theorem build_only_404 (env : Env) (bp rp rf : Line) (agh : Bool)
    (e : Effect) (he : e ∈ (runAll env bp rp rf agh).1)
    (hb : e.isBuild = true) :
    env.fetch = FetchResult.errStatus 404 := by
  obtain ⟨a, b, c, rfl⟩ := isBuild_eq e hb
  by_cases hf : sshScheme.isPrefixOf rf = true
  · rcases henv : env.fetch with d | s
    · rw [runAll_found env bp rp rf agh d hf henv] at he
      rcases continueAfterImage_mem _ _ _ _ _ he with he | hx | hx | hx | hx
      · rcases preEff_mem _ _ _ _ _ he with h | h | h <;>
          simp [Effect.isAddRemote] at h
      · simp [Effect.isWriteConfig] at hx
      · simp [Effect.isCheckout] at hx
      · simp at hx
      · rcases hx.2 with h | h | h <;>
          simp [Effect.isCommit, Effect.isPush, Effect.isCreatePR] at h
    · by_cases h4 : s = 404
      · rw [h4]
      · rw [runAll_non404 env bp rp rf agh s hf henv h4] at he
        rcases preEff_mem _ _ _ _ _ he with h | h | h <;>
          simp [Effect.isAddRemote] at h
  · rw [runAll_badFork env bp rp rf agh (eq_false_of_ne_true hf)] at he
    replace he : Effect.buildImage a b c
        ∈ (if agh then [Effect.writeKnownHosts] else []) := he
    by_cases ha : agh = true
    · rw [if_pos ha] at he
      simp at he
    · rw [if_neg ha] at he
      exact absurd he (List.not_mem_nil _)

/-- If a commit, push, or PR creation occurs in a run's trace, the
duplicate-PR check was negative. -/
theorem publish_only_no_dup (env : Env) (bp rp rf : Line) (agh : Bool)
    (e : Effect) (he : e ∈ (runAll env bp rp rf agh).1)
    (hp : e.isCommit = true ∨ e.isPush = true ∨ e.isCreatePR = true) :
    check_if_pr_exists env.openPRs env.lastCommit = false := by
  by_cases hf : sshScheme.isPrefixOf rf = true
  · have hcont : ∀ eff rn img,
        e ∈ (continueAfterImage env eff rn img).1 →
        (∀ x ∈ eff, x = Effect.writeKnownHosts ∨ x.isAddRemote = true
          ∨ (∃ i, x = Effect.fetchManifest i) ∨ x.isBuild = true) →
        check_if_pr_exists env.openPRs env.lastCommit = false := by
      intro eff rn img hmem heff
      rcases continueAfterImage_mem _ _ _ _ _ hmem with hm | hx | hx | hx | hx
      · rcases heff e hm with h | h | h | h
        · exact absurd hp (fun hp => not_publish_of_other e (Or.inl h) hp)
        · exact absurd hp
            (fun hp => not_publish_of_other e (Or.inr (Or.inl h)) hp)
        · exact absurd hp
            (fun hp => not_publish_of_other e (Or.inr (Or.inr (Or.inl h))) hp)
        · exact absurd hp
            (fun hp =>
              not_publish_of_other e (Or.inr (Or.inr (Or.inr (Or.inl h)))) hp)
      · exact absurd hp
          (fun hp => not_publish_of_other e
            (Or.inr (Or.inr (Or.inr (Or.inr (Or.inl hx))))) hp)
      · exact absurd hp
          (fun hp => not_publish_of_other e
            (Or.inr (Or.inr (Or.inr (Or.inr (Or.inr (Or.inl hx)))))) hp)
      · exact absurd hp
          (fun hp => not_publish_of_other e
            (Or.inr (Or.inr (Or.inr (Or.inr (Or.inr (Or.inr hx)))))) hp)
      · exact hx.1
    rcases henv : env.fetch with d | s
    · rw [runAll_found env bp rp rf agh d hf henv] at he
      refine hcont _ _ _ he ?_
      intro x hx
      rcases preEff_mem _ _ _ _ _ hx with h | h | h
      · exact Or.inl h
      · exact Or.inr (Or.inl h)
      · exact Or.inr (Or.inr (Or.inl ⟨_, h⟩))
    · by_cases h4 : s = 404
      · subst h4
        rcases hbi : build_image env.buildOutputDoc with er | v
        · rw [runAll_404_buildErr env bp rp rf agh er hf henv hbi] at he
          rcases List.mem_append.mp he with hx | hx
          · rcases preEff_mem _ _ _ _ _ hx with h | h | h
            · exact absurd hp (fun hp => not_publish_of_other e (Or.inl h) hp)
            · exact absurd hp
                (fun hp => not_publish_of_other e (Or.inr (Or.inl h)) hp)
            · exact absurd hp
                (fun hp => not_publish_of_other e
                  (Or.inr (Or.inr (Or.inl ⟨_, h⟩))) hp)
          · rw [List.mem_singleton.mp hx] at hp
            exact absurd hp
              (fun hp => not_publish_of_other
                (Effect.buildImage bp rp env.lastCommit)
                (Or.inr (Or.inr (Or.inr (Or.inl rfl)))) hp)
        · rw [runAll_404_build env bp rp rf agh v hf henv hbi] at he
          refine hcont _ _ _ he ?_
          intro x hx
          rcases List.mem_append.mp hx with hx | hx
          · rcases preEff_mem _ _ _ _ _ hx with h | h | h
            · exact Or.inl h
            · exact Or.inr (Or.inl h)
            · exact Or.inr (Or.inr (Or.inl ⟨_, h⟩))
          · rw [List.mem_singleton.mp hx]
            right; right; right
            rfl
      · rw [runAll_non404 env bp rp rf agh s hf henv h4] at he
        rcases preEff_mem _ _ _ _ _ he with h | h | h
        · exact absurd hp (fun hp => not_publish_of_other e (Or.inl h) hp)
        · exact absurd hp
            (fun hp => not_publish_of_other e (Or.inr (Or.inl h)) hp)
        · exact absurd hp
            (fun hp => not_publish_of_other e
              (Or.inr (Or.inr (Or.inl ⟨_, h⟩))) hp)
  · rw [runAll_badFork env bp rp rf agh (eq_false_of_ne_true hf)] at he
    replace he : e ∈ (if agh then [Effect.writeKnownHosts] else []) := he
    by_cases ha : agh = true
    · rw [if_pos ha] at he
      rw [List.mem_singleton.mp he] at hp
      exact absurd hp
        (fun hp => not_publish_of_other _ (Or.inl rfl) hp)
    · rw [if_neg ha] at he
      exact absurd he (List.not_mem_nil _)

/-- When the fetch fails and the build output document yields an image,
that image is the resolved one. -/
theorem build_image_resolved (env : Env) (rp : Line) (s : Nat) (v : Line)
    (hfetch : env.fetch = FetchResult.errStatus s)
    (hb : build_image env.buildOutputDoc = Except.ok v) :
    resolvedImage env rp = v := by
  unfold resolvedImage
  rw [hfetch]
  unfold build_image at hb
  rcases hd : dictGet? env.buildOutputDoc imageKey with _ | w
  · rw [hd] at hb
    exact Except.noConfusion
      (show (Except.error (RunError.keyError imageKey) : Except RunError Line)
        = Except.ok v from hb)
  · rw [hd] at hb
    have hb2 : (Except.ok w : Except RunError Line) = Except.ok v := hb
    injection hb2 with h

/-- When the manifest is found, the candidate reference is the resolved
image. -/
theorem found_resolved (env : Env) (rp : Line) (d : Line)
    (hfetch : env.fetch = FetchResult.found d) :
    resolvedImage env rp = candidateImage rp env.lastCommit := by
  unfold resolvedImage
  rw [hfetch]

/-- A run whose recorded previous image value already equals the
resolved image performs none of the config write, commit, push, PR
listing, or PR creation. -/
theorem stale_no_publish (env : Env) (bp rp rf : Line) (agh : Bool)
    (hstale : dictGet? (replace_parameters env.configLines
        [(imageKey, resolvedImage env rp)]).2 imageKey
      = some (resolvedImage env rp))
    (e : Effect) (he : e ∈ (runAll env bp rp rf agh).1) :
    e.isWriteConfig = false ∧ e.isCommit = false ∧ e.isPush = false
      ∧ e.isListPRs = false ∧ e.isCreatePR = false := by
  by_cases hf : sshScheme.isPrefixOf rf = true
  · rcases henv : env.fetch with d | s
    · rw [runAll_found env bp rp rf agh d hf henv] at he
      rw [continueAfterImage_stale env _ _ _
        (by rw [← found_resolved env rp d henv]; exact hstale)] at he
      rcases preEff_mem _ _ _ _ _ he with h | h | h
      · exact pre_no_publish e (Or.inl h)
      · exact pre_no_publish e (Or.inr (Or.inl h))
      · exact pre_no_publish e (Or.inr (Or.inr (Or.inl ⟨_, h⟩)))
    · by_cases h4 : s = 404
      · subst h4
        rcases hbi : build_image env.buildOutputDoc with er | v
        · rw [runAll_404_buildErr env bp rp rf agh er hf henv hbi] at he
          rcases List.mem_append.mp he with hx | hx
          · rcases preEff_mem _ _ _ _ _ hx with h | h | h
            · exact pre_no_publish e (Or.inl h)
            · exact pre_no_publish e (Or.inr (Or.inl h))
            · exact pre_no_publish e (Or.inr (Or.inr (Or.inl ⟨_, h⟩)))
          · rw [List.mem_singleton.mp hx]
            exact pre_no_publish _ (Or.inr (Or.inr (Or.inr rfl)))
        · rw [runAll_404_build env bp rp rf agh v hf henv hbi] at he
          rw [continueAfterImage_stale env _ _ _
            (by rw [← build_image_resolved env rp 404 v henv hbi]
                exact hstale)] at he
          rcases List.mem_append.mp he with hx | hx
          · rcases preEff_mem _ _ _ _ _ hx with h | h | h
            · exact pre_no_publish e (Or.inl h)
            · exact pre_no_publish e (Or.inr (Or.inl h))
            · exact pre_no_publish e (Or.inr (Or.inr (Or.inl ⟨_, h⟩)))
          · rw [List.mem_singleton.mp hx]
            exact pre_no_publish _ (Or.inr (Or.inr (Or.inr rfl)))
      · rw [runAll_non404 env bp rp rf agh s hf henv h4] at he
        rcases preEff_mem _ _ _ _ _ he with h | h | h
        · exact pre_no_publish e (Or.inl h)
        · exact pre_no_publish e (Or.inr (Or.inl h))
        · exact pre_no_publish e (Or.inr (Or.inr (Or.inl ⟨_, h⟩)))
  · rw [runAll_badFork env bp rp rf agh (eq_false_of_ne_true hf)] at he
    replace he : e ∈ (if agh then [Effect.writeKnownHosts] else []) := he
    by_cases ha : agh = true
    · rw [if_pos ha] at he
      rw [List.mem_singleton.mp he]
      exact pre_no_publish _ (Or.inl rfl)
    · rw [if_neg ha] at he
      exact absurd he (List.not_mem_nil _)

/-- The branch-checkout effects contain no build. -/
theorem branchEff_countP_build (env : Env) :
    (branchEff env).countP (fun e => e.isBuild) = 0 := by
  unfold branchEff
  by_cases hb1 : env.activeBranch = branchNameOf env.lastCommit
  · rw [if_pos hb1]
    rfl
  · rw [if_neg hb1]
    by_cases hb2 : branchNameOf env.lastCommit ∈ env.branches
    · rw [if_pos hb2]
      rfl
    · rw [if_neg hb2]
      rfl

/-- The continuation adds no build effects: its build count is that of
its incoming prefix. -/
theorem continueAfterImage_countP_build (env : Env) (eff : List Effect)
    (rn img : Line) :
    ((continueAfterImage env eff rn img).1).countP (fun e => e.isBuild)
      = eff.countP (fun e => e.isBuild) := by
  unfold continueAfterImage
  rcases update_prototype_cases env.configLines img with hc | hc | ⟨c, hc⟩ <;>
    rw [hc]
  · show (eff ++ ([] : List Effect)).countP (fun e => e.isBuild)
      = eff.countP (fun e => e.isBuild)
    rw [List.append_nil]
  · show ((if check_if_pr_exists env.openPRs env.lastCommit = true then
        (eff ++ [Effect.writeConfigFile c] ++ branchEff env
          ++ [Effect.listOpenPRs], (Except.ok () : Except RunError Unit))
      else
        (eff ++ [Effect.writeConfigFile c] ++ branchEff env
          ++ [Effect.listOpenPRs]
          ++ [Effect.commitIndex (commitMessage img), Effect.pushForce rn,
              Effect.createPR (pr_title env.lastCommit)],
         Except.ok ())).1).countP (fun e => e.isBuild)
      = eff.countP (fun e => e.isBuild)
    by_cases hpr : check_if_pr_exists env.openPRs env.lastCommit = true
    · rw [if_pos hpr]
      show (eff ++ [Effect.writeConfigFile c] ++ branchEff env
          ++ [Effect.listOpenPRs]).countP (fun e => e.isBuild)
        = eff.countP (fun e => e.isBuild)
      rw [List.countP_append, List.countP_append, List.countP_append,
        branchEff_countP_build]
      rfl
    · rw [if_neg hpr]
      show (eff ++ [Effect.writeConfigFile c] ++ branchEff env
          ++ [Effect.listOpenPRs]
          ++ [Effect.commitIndex (commitMessage img), Effect.pushForce rn,
              Effect.createPR (pr_title env.lastCommit)]).countP
            (fun e => e.isBuild)
        = eff.countP (fun e => e.isBuild)
      rw [List.countP_append, List.countP_append, List.countP_append,
        List.countP_append, branchEff_countP_build]
      rfl

/-- The pre-resolution effects contain no build. -/
theorem preEff_no_build (env : Env) (rp rf : Line) (agh : Bool) :
    ∀ a ∈ preEff env rp rf agh, ¬(a.isBuild = true) := by
  intro a ha
  rcases preEff_mem env rp rf agh a ha with h | h | h
  · rw [h]
    simp [Effect.isBuild]
  · intro hb
    obtain ⟨x, y, z, rfl⟩ := isBuild_eq a hb
    simp [Effect.isAddRemote] at h
  · rw [h]
    simp [Effect.isBuild]

/-- Under a 404 fetch, a run's trace contains exactly one build. -/
theorem runAll_countP_build_404 (env : Env) (bp rp rf : Line) (agh : Bool)
    (hf : sshScheme.isPrefixOf rf = true)
    (h4 : env.fetch = FetchResult.errStatus 404) :
    ((runAll env bp rp rf agh).1).countP (fun e => e.isBuild) = 1 := by
  have h0 : (preEff env rp rf agh).countP (fun e => e.isBuild) = 0 :=
    List.countP_eq_zero.mpr (preEff_no_build env rp rf agh)
  rcases hbi : build_image env.buildOutputDoc with er | v
  · rw [runAll_404_buildErr env bp rp rf agh er hf h4 hbi]
    show (preEff env rp rf agh
        ++ [Effect.buildImage bp rp env.lastCommit]).countP
          (fun e => e.isBuild) = 1
    rw [List.countP_append, h0]
    rfl
  · rw [runAll_404_build env bp rp rf agh v hf h4 hbi,
      continueAfterImage_countP_build, List.countP_append, h0]
    rfl

/-- Under a found manifest, a run's trace contains no build. -/
theorem runAll_countP_build_found (env : Env) (bp rp rf : Line) (agh : Bool)
    (d : Line) (hf : sshScheme.isPrefixOf rf = true)
    (hd : env.fetch = FetchResult.found d) :
    ((runAll env bp rp rf agh).1).countP (fun e => e.isBuild) = 0 := by
  rw [runAll_found env bp rp rf agh d hf hd, continueAfterImage_countP_build]
  exact List.countP_eq_zero.mpr (preEff_no_build env rp rf agh)

/-- With an empty mapping, one line is processed to itself. -/
theorem processLine_empty (old : List (Line × Line)) (l : Line) :
    processLine [] old l = (l, old) := by
  unfold processLine
  rcases htok : tokens l with _ | ⟨p0, _ | ⟨p1, _ | ⟨p2, _ | ⟨p3, _ | ⟨p4, rest⟩⟩⟩⟩⟩ <;>
    try rfl
  by_cases hm : p0 = commentTok ∧ p1 = optParamTok
  · simp [hm, dictGet?]
  · simp [hm]

/-- With an empty mapping, the loop is the identity. -/
theorem replaceAux_empty (ls : List Line) (old : List (Line × Line)) :
    replaceAux [] ls old = (ls, old) := by
  induction ls generalizing old with
  | nil => rfl
  | cons l ls ih => simp [replaceAux, processLine_empty, ih]

/-- Claim C9: applying `_replace_parameters` with an empty value mapping
returns the text unchanged and an empty previous-value map. -/
theorem replace_parameters_empty_mapping (lines : List Line) :
    replace_parameters lines [] = (lines, []) :=
  replaceAux_empty lines []

/-- Claim C5: `_replace_parameters` rewrites the text pointwise; a line
with fewer than five whitespace-delimited tokens or whose first two
tokens are not the marker pair `// @optionalParam` is left unchanged;
a matching line whose third token is a key of the mapping records the
line's fifth token as that key's previous value, replaces the fifth
token with the desired value, and is rewritten as its tokens joined by
single spaces. -/
theorem replace_parameters_line_behavior (lines : List Line)
    (values : List (Line × Line)) :
    ((replace_parameters lines values).1 = lines.map (lineOut values))
  ∧ (∀ l : Line,
      ((tokens l).length < 5 ∨ (tokens l).take 2 ≠ [commentTok, optParamTok]) →
      lineOut values l = l)
  ∧ (∀ (l p0 p1 p2 p3 p4 : Line) (rest : List Line) (v : Line)
      (old : List (Line × Line)),
      tokens l = p0 :: p1 :: p2 :: p3 :: p4 :: rest →
      p0 = commentTok → p1 = optParamTok →
      dictGet? values p2 = some v →
      processLine values old l
        = (joinPieces (p0 :: p1 :: p2 :: p3 :: v :: rest),
           dictInsert old p2 p4)) := by
  refine ⟨replaceAux_fst values lines [], lineOut_skip values, ?_⟩
  intro l p0 p1 p2 p3 p4 rest v old htok h0 h1 hvp
  exact processLine_hit values old l p0 p1 p2 p3 p4 rest v htok h0 h1 hvp

/-- Witness for claim C5 at a concrete matching line: its fifth token is
replaced and the original fifth token is recorded. -/
theorem replace_parameters_line_behavior_witness :
    tokens exOldLine
      = [commentTok, optParamTok, imageKey, ("string").data,
         ("gcr.io/kubeflow-images-public/jupyter-web-app:old000").data,
         ("The").data, ("image").data]
  ∧ processLine [(imageKey, ("newimg").data)] [] exOldLine
      = (joinPieces [commentTok, optParamTok, imageKey, ("string").data,
          ("newimg").data, ("The").data, ("image").data],
         dictInsert [] imageKey
           (("gcr.io/kubeflow-images-public/jupyter-web-app:old000").data)) := by
  refine ⟨by decide, ?_⟩
  exact (replace_parameters_line_behavior [exOldLine]
      [(imageKey, ("newimg").data)]).2.2 exOldLine commentTok optParamTok
    imageKey (("string").data)
    (("gcr.io/kubeflow-images-public/jupyter-web-app:old000").data)
    [("The").data, ("image").data] (("newimg").data) []
    (by decide) rfl rfl (by decide)

/-- Claim C8 as stated is false: with the desired value `"a b"` (which
contains a space), patching the line `// @optionalParam image string old
desc` twice gives a different text than patching it once — rejoining
splits the value into two tokens, so the second pass replaces a
different fifth token. -/
theorem replace_parameters_idem_counterexample :
    (replace_parameters
        (replace_parameters [cexLine8] [(imageKey, cexVal8)]).1
        [(imageKey, cexVal8)]).1
      ≠ (replace_parameters [cexLine8] [(imageKey, cexVal8)]).1 := by
  decide

/-- Claim C8 (amended): patching is idempotent whenever every desired
value is nonempty and whitespace-free — then rewritten lines re-tokenize
to the same pieces, and a second pass rewrites each matching line to
itself. -/
theorem replace_parameters_idem (lines : List Line)
    (values : List (Line × Line))
    (hv : ∀ p ∈ values, p.2 ≠ [] ∧ ∀ c ∈ p.2, c.isWhitespace = false) :
    (replace_parameters (replace_parameters lines values).1 values).1
      = (replace_parameters lines values).1 := by
  unfold replace_parameters
  rw [replaceAux_fst, replaceAux_fst, List.map_map]
  exact List.map_congr_left fun l _ => lineOut_idem values hv l

/-- Witness for claim C8 (amended) at a concrete line and a
whitespace-free value. -/
theorem replace_parameters_idem_witness :
    (∀ p ∈ [(imageKey, candidateImage exRegistryProject exCommit)],
        p.2 ≠ [] ∧ ∀ c ∈ p.2, c.isWhitespace = false)
  ∧ (replace_parameters
        (replace_parameters [exOldLine]
          [(imageKey, candidateImage exRegistryProject exCommit)]).1
        [(imageKey, candidateImage exRegistryProject exCommit)]).1
      = (replace_parameters [exOldLine]
          [(imageKey, candidateImage exRegistryProject exCommit)]).1 :=
  ⟨by decide,
   replace_parameters_idem [exOldLine]
     [(imageKey, candidateImage exRegistryProject exCommit)] (by decide)⟩

/-- Claim C6: when no line declares the `image` parameter,
`_replace_parameters` returns (without error — it is total) a
previous-value map lacking the key `image`, and `update_prototype`
then manifests the missing-key fault of its unconditional
`old_values["image"]` dereference. -/
theorem missing_image_param_keyfault (cfg : List Line) (image : Line)
    (h : ∀ l ∈ cfg, lineDeclares imageKey l = false) :
    dictGet? (replace_parameters cfg [(imageKey, image)]).2 imageKey = none
  ∧ update_prototype cfg image
      = Except.error (RunError.keyError imageKey) := by
  have h1 : dictGet? (replace_parameters cfg [(imageKey, image)]).2 imageKey
      = none := by
    unfold replace_parameters
    rw [replaceAux_snd_no_decl [(imageKey, image)] imageKey cfg [] h]
    rfl
  refine ⟨h1, ?_⟩
  unfold update_prototype
  rw [h1]

/-- Witness for claim C6 at a concrete config text with no parameter
lines. -/
theorem missing_image_param_keyfault_witness :
    (∀ l ∈ noMatchCfg, lineDeclares imageKey l = false)
  ∧ (dictGet? (replace_parameters noMatchCfg
        [(imageKey, ("img").data)]).2 imageKey = none
     ∧ update_prototype noMatchCfg (("img").data)
        = Except.error (RunError.keyError imageKey)) :=
  ⟨by decide, missing_image_param_keyfault noMatchCfg (("img").data) (by decide)⟩

/-- Claim C10: when several lines match with the same parameter name
present in the mapping, every such line is rewritten (its fifth token
becomes the desired value), and the returned previous-value map holds
the fifth token of the last such line — each earlier recorded value is
overwritten. -/
theorem multiple_matches_last_wins (lines : List Line)
    (values : List (Line × Line)) (k v : Line)
    (hv : dictGet? values k = some v) :
    dictGet? (replace_parameters lines values).2 k
      = ((lines.filter (lineDeclares k)).getLast?).map fifthTok
  ∧ ∀ l ∈ lines, lineDeclares k l = true →
      lineOut values l
        = joinPieces ((tokens l).take 4 ++ v :: (tokens l).drop 5) := by
  constructor
  · unfold replace_parameters
    rw [replaceAux_snd_lookup values k v hv lines []]
    cases hx : (lines.filter (lineDeclares k)).getLast? <;> rfl
  · intro l hl hd
    unfold lineDeclares at hd
    rcases htok : tokens l with _ | ⟨p0, _ | ⟨p1, _ | ⟨p2, _ | ⟨p3, _ | ⟨p4, rest⟩⟩⟩⟩⟩ <;>
      rw [htok] at hd <;>
      try exact absurd (show (false : Bool) = true from hd) (by decide)
    have hd' : (decide (p0 = commentTok) && decide (p1 = optParamTok)
        && decide (p2 = k)) = true := hd
    simp only [Bool.and_eq_true, decide_eq_true_eq] at hd'
    obtain ⟨⟨h0, h1⟩, h2⟩ := hd'
    have hvp : dictGet? values p2 = some v := by rw [h2]; exact hv
    unfold lineOut
    rw [processLine_hit values [] l p0 p1 p2 p3 p4 rest v htok h0 h1 hvp]
    simp

/-- Witness for claim C10 at two concrete lines declaring `image`: the
recorded previous value is the second line's fifth token. -/
theorem multiple_matches_last_wins_witness :
    dictGet? [(imageKey, ("n").data)] imageKey = some (("n").data)
  ∧ (dictGet? (replace_parameters [declLine1, declLine2]
        [(imageKey, ("n").data)]).2 imageKey
      = (([declLine1, declLine2].filter
            (lineDeclares imageKey)).getLast?).map fifthTok
     ∧ ∀ l ∈ [declLine1, declLine2], lineDeclares imageKey l = true →
        lineOut [(imageKey, ("n").data)] l
          = joinPieces ((tokens l).take 4
              ++ ("n").data :: (tokens l).drop 5)) :=
  ⟨by decide,
   multiple_matches_last_wins [declLine1, declLine2]
     [(imageKey, ("n").data)] imageKey (("n").data) (by decide)⟩

/-- Claim C1: when the previous value recorded during patching for the
`image` parameter equals the resolved new image reference,
`update_prototype` returns the no-update outcome (`none`) with no
config-file write, and the run performs no config write, no commit, no
push, and no pull-request listing or creation. -/
theorem stale_image_skips_pipeline (env : Env) (bp rp rf : Line)
    (agh : Bool)
    (hstale : dictGet? (replace_parameters env.configLines
        [(imageKey, resolvedImage env rp)]).2 imageKey
      = some (resolvedImage env rp)) :
    update_prototype env.configLines (resolvedImage env rp)
      = Except.ok ([], none)
  ∧ ∀ e ∈ (runAll env bp rp rf agh).1,
      e.isWriteConfig = false ∧ e.isCommit = false ∧ e.isPush = false
        ∧ e.isListPRs = false ∧ e.isCreatePR = false :=
  ⟨update_prototype_stale env.configLines (resolvedImage env rp) hstale,
   fun e he => stale_no_publish env bp rp rf agh hstale e he⟩

/-- Witness for claim C1: a run whose config already holds the candidate
image and whose manifest is found. -/
theorem stale_image_skips_pipeline_witness :
    dictGet? (replace_parameters envStale.configLines
        [(imageKey, resolvedImage envStale exRegistryProject)]).2 imageKey
      = some (resolvedImage envStale exRegistryProject)
  ∧ (update_prototype envStale.configLines
        (resolvedImage envStale exRegistryProject) = Except.ok ([], none)
     ∧ ∀ e ∈ (runAll envStale exBuildProject exRegistryProject
          exFork false).1,
        e.isWriteConfig = false ∧ e.isCommit = false ∧ e.isPush = false
          ∧ e.isListPRs = false ∧ e.isCreatePR = false) :=
  ⟨by decide,
   stale_image_skips_pipeline envStale exBuildProject exRegistryProject
     exFork false (by decide)⟩

/-- Claim C2 (amended): when the open-PR listing contains an entry whose
title exactly equals the deterministic title built from the source
revision, the publisher performs no commit, no push, and no PR creation;
branch checkout/creation, however, happens before the duplicate-PR check
and is not skipped. -/
theorem duplicate_pr_skips_publish (env : Env) (bp rp rf : Line)
    (agh : Bool)
    (hdup : check_if_pr_exists env.openPRs env.lastCommit = true) :
    ∀ e ∈ (runAll env bp rp rf agh).1,
      e.isCommit = false ∧ e.isPush = false ∧ e.isCreatePR = false := by
  intro e he
  have hno : ¬(e.isCommit = true ∨ e.isPush = true ∨ e.isCreatePR = true) := by
    intro hp
    rw [publish_only_no_dup env bp rp rf agh e he hp] at hdup
    cases hdup
  refine ⟨?_, ?_, ?_⟩
  · cases hc : e.isCommit
    · rfl
    · exact absurd (Or.inl hc) hno
  · cases hc : e.isPush
    · rfl
    · exact absurd (Or.inr (Or.inl hc)) hno
  · cases hc : e.isCreatePR
    · rfl
    · exact absurd (Or.inr (Or.inr hc)) hno

/-- Witness for claim C2 (amended): a run with the matching PR title
already listed performs no commit, push, or PR creation. -/
theorem duplicate_pr_skips_publish_witness :
    check_if_pr_exists envDupPR.openPRs envDupPR.lastCommit = true
  ∧ ∀ e ∈ (runAll envDupPR exBuildProject exRegistryProject exFork false).1,
      e.isCommit = false ∧ e.isPush = false ∧ e.isCreatePR = false :=
  ⟨by decide,
   duplicate_pr_skips_publish envDupPR exBuildProject exRegistryProject
     exFork false (by decide)⟩

/-- Claim C2 as stated is false: branch creation is not skipped when a
duplicate PR exists, because the checkout happens before the
duplicate-PR check. In the concrete run below the PR listing already
contains the matching title, yet `git checkout -b update_jupyter_abc123`
is executed. -/
theorem duplicate_pr_counterexample :
    ¬ (∀ (env : Env) (bp rp rf : Line) (agh : Bool),
        check_if_pr_exists env.openPRs env.lastCommit = true →
        ∀ e ∈ (runAll env bp rp rf agh).1,
          e.isCheckout = false ∧ e.isCommit = false ∧ e.isPush = false
            ∧ e.isCreatePR = false) := by
  intro h
  have hm : Effect.checkoutBranch (branchNameOf envDupPR.lastCommit) true
      ∈ (runAll envDupPR exBuildProject exRegistryProject exFork false).1 := by
    decide
  have hc := (h envDupPR exBuildProject exRegistryProject exFork false
    (by decide) _ hm).1
  exact absurd hc (by decide)

/-- Claim C3: a registry fetch failure with any status other than 404 is
re-raised as the run's fatal error and no build is attempted; and in any
run whatsoever, a build effect occurs only under a 404 fetch failure. -/
theorem non404_registry_error_fatal (env : Env) (bp rp rf : Line)
    (agh : Bool) (s : Nat)
    (hf : sshScheme.isPrefixOf rf = true)
    (hs : env.fetch = FetchResult.errStatus s) (h4 : s ≠ 404) :
    (runAll env bp rp rf agh).2 = Except.error (RunError.registryError s)
  ∧ (∀ e ∈ (runAll env bp rp rf agh).1, e.isBuild = false)
  ∧ (∀ (env2 : Env) (bp2 rp2 rf2 : Line) (agh2 : Bool) (e : Effect),
      e ∈ (runAll env2 bp2 rp2 rf2 agh2).1 → e.isBuild = true →
      env2.fetch = FetchResult.errStatus 404) := by
  refine ⟨?_, ?_, fun env2 bp2 rp2 rf2 agh2 e he hb =>
    build_only_404 env2 bp2 rp2 rf2 agh2 e he hb⟩
  · rw [runAll_non404 env bp rp rf agh s hf hs h4]
  · intro e he
    rw [runAll_non404 env bp rp rf agh s hf hs h4] at he
    cases hb : e.isBuild
    · rfl
    · exact absurd hb (preEff_no_build env rp rf agh e he)

/-- Witness for claim C3: a registry failure with status 500 is fatal
and the trace contains no build. -/
theorem non404_registry_error_fatal_witness :
    sshScheme.isPrefixOf exFork = true
  ∧ envErr500.fetch = FetchResult.errStatus 500
  ∧ 500 ≠ 404
  ∧ ((runAll envErr500 exBuildProject exRegistryProject exFork false).2
      = Except.error (RunError.registryError 500)
     ∧ (∀ e ∈ (runAll envErr500 exBuildProject exRegistryProject
          exFork false).1, e.isBuild = false)
     ∧ (∀ (env2 : Env) (bp2 rp2 rf2 : Line) (agh2 : Bool) (e : Effect),
         e ∈ (runAll env2 bp2 rp2 rf2 agh2).1 → e.isBuild = true →
         env2.fetch = FetchResult.errStatus 404)) :=
  ⟨by decide, rfl, by decide,
   non404_registry_error_fatal envErr500 exBuildProject exRegistryProject
     exFork false 500 (by decide) rfl (by decide)⟩

/-- Claim C4: under a 404 fetch failure for the candidate reference the
run invokes the build exactly once and continues with the `image` field
of the build output document; under a found manifest no build occurs and
the run continues with the candidate reference itself. -/
theorem registry_404_builds_once (env : Env) (bp rp rf : Line)
    (agh : Bool) (hf : sshScheme.isPrefixOf rf = true) :
    (env.fetch = FetchResult.errStatus 404 →
      ((runAll env bp rp rf agh).1.countP (fun e => e.isBuild) = 1)
      ∧ ∀ v, build_image env.buildOutputDoc = Except.ok v →
          runAll env bp rp rf agh
            = continueAfterImage env
                (preEff env rp rf agh
                  ++ [Effect.buildImage bp rp env.lastCommit])
                (remoteNameOf env rf) v)
  ∧ (∀ d, env.fetch = FetchResult.found d →
      ((runAll env bp rp rf agh).1.countP (fun e => e.isBuild) = 0)
      ∧ runAll env bp rp rf agh
          = continueAfterImage env (preEff env rp rf agh)
              (remoteNameOf env rf)
              (candidateImage rp env.lastCommit)) := by
  constructor
  · intro h4
    exact ⟨runAll_countP_build_404 env bp rp rf agh hf h4,
      fun v hb => runAll_404_build env bp rp rf agh v hf h4 hb⟩
  · intro d hd
    exact ⟨runAll_countP_build_found env bp rp rf agh d hf hd,
      runAll_found env bp rp rf agh d hf hd⟩

/-- Witness for claim C4: under the concrete 404 environment the build
count of the trace is one. -/
theorem registry_404_builds_once_witness :
    sshScheme.isPrefixOf exFork = true
  ∧ exEnv.fetch = FetchResult.errStatus 404
  ∧ ((runAll exEnv exBuildProject exRegistryProject exFork false).1.countP
      (fun e => e.isBuild) = 1) := by
  refine ⟨by decide, rfl, ?_⟩
  exact ((registry_404_builds_once exEnv exBuildProject exRegistryProject
    exFork false (by decide)).1 rfl).1

/-- Claim C7 (amended): a remote fork URL without the required
`git@github.com` scheme makes the run fail immediately with the fatal
`ValueError`; no remote is added, no image is built, the config file is
not written, and no commit, push, or PR creation occurs. The one prior
side effect the validation does not prevent is the known-hosts append
when the `add_github_host` flag is set. -/
theorem bad_fork_fatal (env : Env) (bp rp rf : Line) (agh : Bool)
    (h : sshScheme.isPrefixOf rf = false) :
    runAll env bp rp rf agh
      = ((if agh then [Effect.writeKnownHosts] else []),
         Except.error (RunError.valueError sshErrMsg))
  ∧ ∀ e ∈ (runAll env bp rp rf agh).1,
      e.isAddRemote = false ∧ e.isBuild = false ∧ e.isWriteConfig = false
        ∧ e.isCommit = false ∧ e.isPush = false ∧ e.isCreatePR = false := by
  refine ⟨runAll_badFork env bp rp rf agh h, ?_⟩
  intro e he
  rw [runAll_badFork env bp rp rf agh h] at he
  replace he : e ∈ (if agh then [Effect.writeKnownHosts] else []) := he
  by_cases ha : agh = true
  · rw [if_pos ha] at he
    rw [List.mem_singleton.mp he]
    exact ⟨rfl, rfl, rfl, rfl, rfl, rfl⟩
  · rw [if_neg ha] at he
    exact absurd he (List.not_mem_nil e)

/-- Witness for claim C7 (amended): a concrete https fork URL fails the
validation with only the error outcome. -/
theorem bad_fork_fatal_witness :
    sshScheme.isPrefixOf exBadFork = false
  ∧ (runAll exEnv exBuildProject exRegistryProject exBadFork false
      = ([], Except.error (RunError.valueError sshErrMsg))
     ∧ ∀ e ∈ (runAll exEnv exBuildProject exRegistryProject
          exBadFork false).1,
        e.isAddRemote = false ∧ e.isBuild = false ∧ e.isWriteConfig = false
          ∧ e.isCommit = false ∧ e.isPush = false ∧ e.isCreatePR = false) :=
  ⟨by decide,
   bad_fork_fatal exEnv exBuildProject exRegistryProject exBadFork false
     (by decide)⟩

/-- Claim C7 as stated is false on its "no file is written" clause: with
`add_github_host = true`, the known-hosts file is appended before the
fork-URL validation, so a file write does occur even though the run then
fails with the configuration error. -/
theorem bad_fork_counterexample :
    ¬ (∀ (env : Env) (bp rp rf : Line) (agh : Bool),
        sshScheme.isPrefixOf rf = false →
        ∀ e ∈ (runAll env bp rp rf agh).1, e.isFileWrite = false) := by
  intro h
  have hm : Effect.writeKnownHosts
      ∈ (runAll exEnv exBuildProject exRegistryProject exBadFork true).1 := by
    decide
  have hc := h exEnv exBuildProject exRegistryProject exBadFork true
    (by decide) Effect.writeKnownHosts hm
  exact absurd hc (by decide)
